import Mathlib

/-!
Shallow embedding of the IDPConformerGenerator core:
geometry kernel (`libcalc.py`), torsion calculator, the chain-growth loop of
`cli_build.py`, and the clash validator (`alphas/clash_validator.py`),
together with theorems settling the specification claims.

Coordinates are modelled as triples of real numbers; the NumPy float
computations of the source are modelled by exact real arithmetic.
-/

noncomputable section

open scoped Classical

/-- A 3-component coordinate vector, `np.array([x, y, z])`. -/
abbrev V3 : Type := ℝ × ℝ × ℝ

/-- The zero vector. -/
def v3zero : V3 := (0, 0, 0)

/-- Componentwise subtraction, `np.subtract(a, b)`. -/
def vsub (a b : V3) : V3 := (a.1 - b.1, a.2.1 - b.2.1, a.2.2 - b.2.2)

/-- Componentwise addition. -/
def vadd (a b : V3) : V3 := (a.1 + b.1, a.2.1 + b.2.1, a.2.2 + b.2.2)

/-- Scalar multiple of a vector. -/
def smul3 (s : ℝ) (a : V3) : V3 := (s * a.1, s * a.2.1, s * a.2.2)

/-- Division of a vector by a scalar, `v / s`. -/
def sdiv (a : V3) (s : ℝ) : V3 := (a.1 / s, a.2.1 / s, a.2.2 / s)

/-- Dot product of two vectors. -/
def dot3 (a b : V3) : ℝ := a.1 * b.1 + a.2.1 * b.2.1 + a.2.2 * b.2.2

/-- Cross product, `np.cross(a, b)`. -/
def cross3 (a b : V3) : V3 :=
  (a.2.1 * b.2.2 - a.2.2 * b.2.1,
   a.2.2 * b.1 - a.1 * b.2.2,
   a.1 * b.2.1 - a.2.1 * b.1)

/-- Euclidean norm of a vector, `np.linalg.norm(v)`. -/
def vnorm (a : V3) : ℝ := Real.sqrt (dot3 a a)

/-- A 3x3 matrix given by its three rows. -/
abbrev M3 : Type := V3 × V3 × V3

/-- `AXIS_111`, the identity matrix used by `rotation_to_plane`. -/
def AXIS_111 : M3 := ((1, 0, 0), (0, 1, 0), (0, 0, 1))

/-- Matrix transpose. -/
def transpose3 (m : M3) : M3 :=
  ((m.1.1, m.2.1.1, m.2.2.1),
   (m.1.2.1, m.2.1.2.1, m.2.2.2.1),
   (m.1.2.2, m.2.1.2.2, m.2.2.2.2))

/-- Row-vector times matrix, `np.dot(v, m)` for a 1-D `v` and 3x3 `m`. -/
def vecmat (v : V3) (m : M3) : V3 :=
  vadd (vadd (smul3 v.1 m.1) (smul3 v.2.1 m.2.1)) (smul3 v.2.2 m.2.2)

/-- Matrix product `np.dot(a, b)` of two 3x3 matrices (rows of the result). -/
def matmul3 (a b : M3) : M3 := (vecmat a.1 b, vecmat a.2.1 b, vecmat a.2.2 b)

/-- `make_axis_vectors(A, B, C)` from `libs/libcalc.py`: returns
`(parallel_ABC, AB_vect, perpendicular)`; each vector is normalized only when
its norm is strictly positive, otherwise it is returned unchanged. -/
def make_axis_vectors (A B C : V3) : V3 × V3 × V3 :=
  let AB_vect := vsub A B
  let parallel_ABC := cross3 AB_vect (vsub C B)
  let perpendicular := cross3 AB_vect parallel_ABC
  let AB_n := if 0 < vnorm AB_vect then sdiv AB_vect (vnorm AB_vect) else AB_vect
  let par_n := if 0 < vnorm parallel_ABC then sdiv parallel_ABC (vnorm parallel_ABC)
    else parallel_ABC
  let per_n := if 0 < vnorm perpendicular then sdiv perpendicular (vnorm perpendicular)
    else perpendicular
  (par_n, AB_n, per_n)

/-- `rotation_to_plane(A, B, C)` from `libs/libcalc.py`:
`b = [AB_vect, -perpendicular, parallel_ABC]`, result `np.dot(b, AXIS_111).T`. -/
def rotation_to_plane (A B C : V3) : M3 :=
  let axes := make_axis_vectors A B C
  let b : M3 := (axes.2.1, smul3 (-1) axes.2.2, axes.1)
  transpose3 (matmul3 b AXIS_111)

/-- `make_coord_from_angles(theta, phi, distance)` from `libs/libcalc.py`. -/
def make_coord_from_angles (theta phi distance : ℝ) : V3 :=
  (distance * Real.cos phi,
   distance * Real.sin phi * Real.cos theta,
   distance * Real.sin phi * Real.sin theta)

/-- `make_coord(theta, phi, distance, parent, xaxis, yaxis)` from
`libs/libcalc.py`: rotates the local offset into the frame of
`rotation_to_plane(parent, xaxis, yaxis)` and translates by `parent`. -/
def make_coord (theta phi distance : ℝ) (parent xaxis yaxis : V3) : V3 :=
  let new_coord := make_coord_from_angles theta phi distance
  let rotation := rotation_to_plane parent xaxis yaxis
  vadd (vecmat new_coord (transpose3 rotation)) parent

/-- `np.arctan2(y, x)`: quadrant-resolved inverse tangent. -/
def atan2 (y x : ℝ) : ℝ :=
  if 0 < x then Real.arctan (y / x)
  else if x < 0 then
    (if 0 ≤ y then Real.arctan (y / x) + Real.pi else Real.arctan (y / x) - Real.pi)
  else
    (if 0 < y then Real.pi / 2 else if y < 0 then -(Real.pi / 2) else 0)

/-- Consecutive bond vectors `q_vecs = coords[1:, :] - coords[:-1, :]`. -/
def qVecsOf (coords : List V3) : List V3 := List.zipWith vsub coords.tail coords

/-- Frobenius norm of a stack of vectors: `np.linalg.norm` of a 2-D array with
no `axis` argument, i.e. the square root of the sum of all squared entries. -/
def frob (l : List V3) : ℝ := Real.sqrt (l.map (fun v => dot3 v v)).sum

/-- `calc_torsion_angles(coords)` from `libs/libcalc.py`, translated line by
line.  Note that both `np.linalg.norm(cross)` and
`np.linalg.norm(q_vecs[1:-1])` are called without an `axis` argument, so the
whole stack is divided by a single scalar (its Frobenius norm), not row by
row. -/
def calc_torsion_angles (coords : List V3) : List ℝ :=
  let q_vecs := qVecsOf coords
  let crossL := List.zipWith cross3 q_vecs.dropLast q_vecs.tail
  let unitary := crossL.map (fun v => sdiv v (frob crossL))
  let u0 := unitary.dropLast
  let u1 := unitary.tail
  let qmid := q_vecs.tail.dropLast
  let u3 := qmid.map (fun v => sdiv v (frob qmid))
  let u2 := List.zipWith cross3 u3 u1
  let cos_theta := List.zipWith dot3 u0 u1
  let sin_theta := List.zipWith dot3 u0 u2
  List.zipWith (fun sn cs => -(atan2 sn cs)) sin_theta cos_theta

/-- Helper for writing a negated angle without a leading minus sign. -/
def negOf (x : ℝ) : ℝ := -x

/-- Normalization `v / np.linalg.norm(v)` (no guard), as written in the
specification for per-bond unit normals. -/
def unitize (v : V3) : V3 := sdiv v (vnorm v)

/-- The signed dihedral angle of four consecutive atoms as the specification
words it: per-bond unit normals `u_k = normalize(q_k x q_{k+1})`, sign
resolved by `atan2` of the projections of adjacent normals onto each other
and onto a reference vector orthogonal to both, with the same sign
convention as `calc_torsion_angles`. -/
def specDihedral (p0 p1 p2 p3 : V3) : ℝ :=
  let q0 := vsub p1 p0
  let q1 := vsub p2 p1
  let q2 := vsub p3 p2
  let u0 := unitize (cross3 q0 q1)
  let u1 := unitize (cross3 q1 q2)
  let u2 := cross3 (unitize q1) u1
  negOf (atan2 (dot3 u0 u2) (dot3 u0 u1))

/-! ## Clash validator (`alphas/clash_validator.py`)

A residue ("atom dict") is the ordered list of its atom coordinates
(canonically N, CA, C, O); a chain is a list of residues.  `scipy`
distances are Euclidean; comparisons that NumPy cannot broadcast raise
`ValueError`, modelled by `none`. -/

/-- Euclidean distance between two atoms (one entry of `cdist`). -/
def edist3 (p q : V3) : ℝ :=
  Real.sqrt ((p.1 - q.1) ^ 2 + (p.2.1 - q.2.1) ^ 2 + (p.2.2 - q.2.2) ^ 2)

/-- `VDW = np.array([1.55, 1.7, 1.7, 1.52])`: van der Waals radii for the
canonical atom order N, CA, C, O. -/
def VDW : List ℝ := [1.55, 1.7, 1.7, 1.52]

/-- Entry `i` of the radius table. -/
def vdwAt (i : ℕ) : ℝ := VDW.getD i 0

/-- Elementwise `<` comparison of a `p x m` matrix `d` against a `q x r`
matrix `a` under NumPy broadcasting, followed by `any`.  Each dimension must
match or be 1, otherwise NumPy raises `ValueError` (`none`).  An index into a
broadcast dimension of size `k` reads entry `i % k` (identity when the sizes
match, constant 0 when the size is 1). -/
def bcastAny (p m : ℕ) (d : ℕ → ℕ → ℝ) (q r : ℕ) (a : ℕ → ℕ → ℝ) : Option Bool :=
  if (p = q ∨ p = 1 ∨ q = 1) ∧ (m = r ∨ m = 1 ∨ r = 1) then
    some (decide (∃ i j, i < max p q ∧ j < max m r ∧ d (i % p) (j % m) < a (i % q) (j % r)))
  else none

/-- Number of rows of `np.tile(allowed_distances, (ceil(x/4), ceil(y/4)))`:
the column count is cut back to `y` by the `[:, :y]` slice, but the row count
stays `4 * ceil(x/4)`. -/
def tiledRows (x : ℕ) : ℕ := 4 * ((x + 3) / 4)

/-- `ClashValidator.clash_found_vectorized(current_chain, last_chain)`:
concatenates the atoms of `last_chain[:-2]` and of
`current_chain[len(last_chain)+1:]` (raising `ValueError` if either residue
list is empty, since `np.concatenate` rejects an empty argument list), takes
all pairwise distances, and compares them against the tiled radius-sum table
sliced to `[:, :y]`; reports whether any entry is strictly smaller. -/
def clash_found_vectorized (current_chain last_chain : List (List V3)) : Option Bool :=
  let settledRes := last_chain.take (last_chain.length - 2)
  let newRes := current_chain.drop (last_chain.length + 1)
  if settledRes.isEmpty ∨ newRes.isEmpty then none
  else
    let sa := settledRes.flatten
    let na := newRes.flatten
    bcastAny sa.length na.length
      (fun i j => edist3 (sa.getD i v3zero) (na.getD j v3zero))
      (tiledRows sa.length) na.length
      (fun i j => vdwAt (i % 4) + vdwAt (j % 4))

/-- Entry `(i, j)` of `allowed_distances[:-1].T` (shape `4 x 3`), the table
used by the `except ValueError` branch of `clash_found`. -/
def allowedT (i j : ℕ) : ℝ := vdwAt j + vdwAt i

/-- One inner-loop body of `ClashValidator.clash_found`: compare the distance
block of one settled residue against one new residue.  The `try` branch
compares against the full `4 x 4` table; on a broadcast `ValueError` the
`except` branch retries against `allowed_distances[:-1].T` (shape `4 x 3`);
a second failure propagates (`none`). -/
def blockCompare (prev newr : List V3) : Option Bool :=
  let d := fun i j => edist3 (prev.getD i v3zero) (newr.getD j v3zero)
  match bcastAny prev.length newr.length d 4 4 (fun i j => vdwAt i + vdwAt j) with
  | some b => some b
  | none => bcastAny prev.length newr.length d 4 3 allowedT

/-- Inner loop of `ClashValidator.clash_found` over the new residues, with the
short-circuit `return True`. -/
def scanNew (prev : List V3) : List (List V3) → Option Bool
  | [] => some false
  | r :: rs =>
    match blockCompare prev r with
    | none => none
    | some true => some true
    | some false => scanNew prev rs

/-- Outer loop of `ClashValidator.clash_found` over the settled residues. -/
def scanSeen : List (List V3) → List (List V3) → Option Bool
  | [], _ => some false
  | p :: ps, news =>
    match scanNew p news with
    | none => none
    | some true => some true
    | some false => scanSeen ps news

/-- `ClashValidator.clash_found(current_chain, last_chain)`: the incremental
residue-by-residue clash test over `last_chain[:seen]` for
`seen in range(0, len(last_chain)-2)` and
`current_chain[new]` for `new in range(len(last_chain)+1, len(current_chain))`. -/
def clash_found (current_chain last_chain : List (List V3)) : Option Bool :=
  scanSeen (last_chain.take (last_chain.length - 2))
    (current_chain.drop (last_chain.length + 1))

/-- The `ClashValidator` object: its only field is the `clashes` counter set
to 0 by `__init__`. -/
structure ClashValidator where
  clashes : ℕ

/-- `ClashValidator()` constructor. -/
def ClashValidator.new : ClashValidator := ⟨0⟩

/-- The `clash_found_vectorized` method as a state transformer on the
validator object: the body never assigns to `self`, so the state passes
through unchanged. -/
def ClashValidator.vectorizedCall (self : ClashValidator)
    (current_chain last_chain : List (List V3)) : Option Bool × ClashValidator :=
  (clash_found_vectorized current_chain last_chain, self)

/-- The `clash_found` method as a state transformer on the validator object. -/
def ClashValidator.incrementalCall (self : ClashValidator)
    (current_chain last_chain : List (List V3)) : Option Bool × ClashValidator :=
  (clash_found current_chain last_chain, self)

/-! ## Chain builder (`cli_build.py`, `main`, building section)

The geometric constants are imported from `idpconfgen.core.definitions`,
which is outside the given sources; they are carried as an opaque parameter
record, matching the immutable `BondGeometryConstants` of the specification. -/

/-- The bond-geometry constants imported by `cli_build.py` from
`idpconfgen.core.definitions`. -/
structure BuildConsts where
  distance_N_CA : ℝ
  distance_CA_C : ℝ
  distance_C_Np1 : ℝ
  average_N_CA_C : ℝ
  average_CA_C_Np1 : ℝ
  average_Cm1_N_CA : ℝ

/-- Modelled from the spec: `make_coord_Q` is imported from
`idpconfgen.libs.libcalc` by `cli_build.py` but is absent from the given
sources.  Per spec section 4.1 the placement primitive is `placeAtom(theta,
phi, distance, parent, xAxisPoint, yAxisPoint)` realized by `make_coord`;
the call sites pass the three reference atoms oldest first with the most
recently placed atom last, the bond length, the bend complement
`pi - bondAngle` as `theta`, and the torsion as `phi`, so the last reference
atom is the parent and the frame runs back along the chain. -/
def make_coord_Q (A B C : V3) (distance theta phi : ℝ) : V3 :=
  make_coord theta phi distance C B A

/-- The `k`-th value drawn from `bond_lens =
cycle([distance_C_Np1, distance_N_CA, distance_CA_C])`, with the mutable
`cycle` iterator modelled as indexing modulo 3 by the number of `next`
calls made so far. -/
def bondLenCyc (P : BuildConsts) (k : ℕ) : ℝ :=
  [P.distance_C_Np1, P.distance_N_CA, P.distance_CA_C].getD (k % 3) 0

/-- The `k`-th value drawn from `bond_bend = cycle([pi - average_CA_C_Np1,
pi - average_Cm1_N_CA, pi - average_N_CA_C])`. -/
def bondBendCyc (P : BuildConsts) (k : ℕ) : ℝ :=
  [Real.pi - P.average_CA_C_Np1, Real.pi - P.average_Cm1_N_CA,
    Real.pi - P.average_N_CA_C].getD (k % 3) 0

/-- Flatten a fragment of per-residue angle triples: `angles[...].ravel()`. -/
def ravel3 : List (ℝ × ℝ × ℝ) → List ℝ
  | [] => []
  | t :: ts => t.1 :: t.2.1 :: t.2.2 :: ravel3 ts

/-- `agls = angles[RC(slices), :].ravel()[1:-2]`: the torsion values a drawn
fragment actually contributes, i.e. the raveled angles without the first
entry and without the last two entries. -/
def interiorTorsions (frag : List (ℝ × ℝ × ℝ)) : List ℝ :=
  ((ravel3 frag).drop 1).dropLast.dropLast

/-- Ghost record of one `make_coord_Q` call made by the growth loop: the
three reference coordinates and the `(bond length, bend, torsion)` arguments
consumed for it. -/
structure PCall where
  refA : V3
  refB : V3
  refC : V3
  blen : ℝ
  bbend : ℝ
  btor : ℝ
deriving Inhabited

/-- One placement `bb[i, :] = make_coord_Q(bb[i-3], bb[i-2], bb[i-1],
next(bond_lens), next(bond_bend), torsion)` followed by `i += 1`, with the
chain as the list of atoms placed so far (`i = bb.length`) and the cycle
counter equal to the number of placements made since the seed
(`bb.length - 3`).  Also returns the ghost record of the call. -/
def placeNext (P : BuildConsts) (bb : List V3) (torsion : ℝ) : List V3 × PCall :=
  let k := bb.length - 3
  let c : PCall :=
    ⟨bb.getD (bb.length - 3) v3zero, bb.getD (bb.length - 2) v3zero,
      bb.getD (bb.length - 1) v3zero, bondLenCyc P k, bondBendCyc P k, torsion⟩
  (bb ++ [make_coord_Q c.refA c.refB c.refC c.blen c.bbend c.btor], c)

/-- The `for torsion in agls` loop of one fragment under the `try`: the
assignment `bb[i, :] = ...` raises `IndexError` as soon as `i` reaches the
preallocated backbone size `bbLen`, which breaks the `while True` loop; the
returned flag records whether the `IndexError` fired.  The trace accumulates
the ghost records of the placements made. -/
def growFrag (P : BuildConsts) (bbLen : ℕ) :
    List V3 → List PCall → List ℝ → List V3 × List PCall × Bool
  | bb, tr, [] => (bb, tr, false)
  | bb, tr, t :: ts =>
    if bb.length < bbLen then
      let r := placeNext P bb t
      growFrag P bbLen r.1 (tr ++ [r.2]) ts
    else (bb, tr, true)

/-- The `while True` loop: draw fragment number `n` from the random stream,
grow, and stop when a placement overflowed the backbone array.  `fuel`
bounds the number of draws considered; `none` means the loop has not
terminated within `fuel` draws. -/
def growLoop (P : BuildConsts) (bbLen : ℕ) (draws : ℕ → List (ℝ × ℝ × ℝ)) :
    ℕ → ℕ → List V3 → List PCall → Option (List V3 × List PCall)
  | 0, _, _, _ => none
  | fuel + 1, n, bb, tr =>
    let r := growFrag P bbLen bb tr (interiorTorsions (draws n))
    if r.2.2 then some (r.1, r.2.1) else growLoop P bbLen draws fuel (n + 1) r.1 r.2.1

/-- The deterministically seeded first three backbone atoms: N at the origin,
CA on the x axis at `distance_N_CA`, and C via `make_coord_Q` from the dummy
reference `(0, distance_N_CA, 0)`, atom 0 and atom 1, with bond
`distance_CA_C`, bend `pi - average_N_CA_C` and torsion 0. -/
def seedChain (P : BuildConsts) : List V3 :=
  let a0 : V3 := (0, 0, 0)
  let a1 : V3 := (P.distance_N_CA, 0, 0)
  [a0, a1, make_coord_Q (0, P.distance_N_CA, 0) a0 a1 P.distance_CA_C
    (Real.pi - P.average_N_CA_C) 0]

/-- The whole building section of `main`: seed, then grow fragments until the
backbone array of size `bbLen` overflows. -/
def build (P : BuildConsts) (bbLen : ℕ) (draws : ℕ → List (ℝ × ℝ × ℝ))
    (fuel : ℕ) : Option (List V3 × List PCall) :=
  growLoop P bbLen draws fuel 0 (seedChain P) []

/-! ## Claim-side definitions used for comparison against the code -/

/-- The boundary-discard rule as claim C4 words it: drop exactly the first
and the last raveled torsion value of a fragment. -/
def claimInteriorTorsions (frag : List (ℝ × ℝ × ℝ)) : List ℝ :=
  ((ravel3 frag).drop 1).dropLast

/-- The bend cycle as claim C3 words it: C-to-N bond with the C-N-CA-derived
bend, N-to-CA bond with the N-CA-C bend, CA-to-C bond with the CA-C-N bend,
i.e. bends cycling as `average_Cm1_N_CA, average_N_CA_C, average_CA_C_Np1`. -/
def claimedBondBendCyc (P : BuildConsts) (k : ℕ) : ℝ :=
  [Real.pi - P.average_Cm1_N_CA, Real.pi - P.average_N_CA_C,
    Real.pi - P.average_CA_C_Np1].getD (k % 3) 0

/-- A concrete constants record with pairwise distinct bend averages, used to
instantiate the builder on explicit inputs. -/
def P₀ : BuildConsts := ⟨1, 1, 1, 1, 2, 3⟩

/-- One settled residue block clashing with one new residue block: some atom
pair is strictly closer than the sum of the van der Waals radii of the atom
positions within their residues.  Both clash strategies are proved to reduce
to this predicate over the compared residue windows. -/
def BlockClash (prev newr : List V3) : Prop :=
  ∃ i j, i < prev.length ∧ j < newr.length ∧
    edist3 (prev.getD i v3zero) (newr.getD j v3zero) < vdwAt i + vdwAt j

/-! ## Basic vector facts -/

theorem dot3_self_nonneg (v : V3) : 0 ≤ dot3 v v := by
  unfold dot3
  nlinarith [mul_self_nonneg v.1, mul_self_nonneg v.2.1, mul_self_nonneg v.2.2]

theorem vnorm_nonneg (v : V3) : 0 ≤ vnorm v := Real.sqrt_nonneg _

theorem vnorm_eq_zero_iff (v : V3) : vnorm v = 0 ↔ v = v3zero := by
  unfold vnorm
  rw [Real.sqrt_eq_zero (dot3_self_nonneg v)]
  constructor
  · intro h
    have h1 : v.1 = 0 := by
      unfold dot3 at h
      nlinarith [mul_self_nonneg v.1, mul_self_nonneg v.2.1, mul_self_nonneg v.2.2]
    have h2 : v.2.1 = 0 := by
      unfold dot3 at h
      nlinarith [mul_self_nonneg v.1, mul_self_nonneg v.2.1, mul_self_nonneg v.2.2]
    have h3 : v.2.2 = 0 := by
      unfold dot3 at h
      nlinarith [mul_self_nonneg v.1, mul_self_nonneg v.2.1, mul_self_nonneg v.2.2]
    show v = (0, 0, 0)
    rw [Prod.ext_iff, Prod.ext_iff]
    exact ⟨h1, h2, h3⟩
  · intro h
    subst h
    simp [dot3, v3zero]

theorem vnorm_v3zero : vnorm v3zero = 0 := (vnorm_eq_zero_iff _).mpr rfl

theorem cross3_smul_self (v : V3) (t : ℝ) : cross3 v (smul3 t v) = v3zero := by
  unfold cross3 smul3 v3zero
  rw [Prod.ext_iff, Prod.ext_iff]
  refine ⟨by ring, by ring, by ring⟩

theorem cross3_zero_right (v : V3) : cross3 v v3zero = v3zero := by
  unfold cross3 v3zero
  rw [Prod.ext_iff, Prod.ext_iff]
  norm_num

/-! ## Claim C9: both clash methods leave the validator state unchanged and
are deterministic -/

/-- Claim C9: `clash_found` and `clash_found_vectorized` are pure with
respect to the validator object: every field of the `ClashValidator`
instance, in particular the `clashes` counter, is unchanged by a call, and a
repeated call with identical arguments (from the post-call state) returns the
identical result. -/
theorem c9_validator_pure (v : ClashValidator) (current last : List (List V3)) :
    (v.vectorizedCall current last).2 = v ∧
    (v.incrementalCall current last).2 = v ∧
    (v.vectorizedCall current last).2.clashes = v.clashes ∧
    (v.incrementalCall current last).2.clashes = v.clashes ∧
    ((v.vectorizedCall current last).2.vectorizedCall current last).1 =
      (v.vectorizedCall current last).1 ∧
    ((v.incrementalCall current last).2.incrementalCall current last).1 =
      (v.incrementalCall current last).1 := by
  simp [ClashValidator.vectorizedCall, ClashValidator.incrementalCall]

/-! ## Claim C8: `make_axis_vectors` is total and passes zero-length
components through un-normalized -/

/-- Claim C8: for every input triple the frame components whose norm is zero
are returned un-normalized, and a vector of zero norm is the zero vector; in
particular three collinear points (`C - B` parallel to `A - B`) yield the
zero normal vector, and no component is normalized in that case. -/
theorem c8_frame_total_zero (A B C : V3) :
    (vnorm (vsub A B) = 0 →
      (make_axis_vectors A B C).2.1 = vsub A B ∧ vsub A B = v3zero) ∧
    (vnorm (cross3 (vsub A B) (vsub C B)) = 0 →
      (make_axis_vectors A B C).1 = cross3 (vsub A B) (vsub C B) ∧
        cross3 (vsub A B) (vsub C B) = v3zero) ∧
    (vnorm (cross3 (vsub A B) (cross3 (vsub A B) (vsub C B))) = 0 →
      (make_axis_vectors A B C).2.2 =
          cross3 (vsub A B) (cross3 (vsub A B) (vsub C B)) ∧
        cross3 (vsub A B) (cross3 (vsub A B) (vsub C B)) = v3zero) ∧
    (∀ t : ℝ, vsub C B = smul3 t (vsub A B) →
      (make_axis_vectors A B C).1 = v3zero ∧ (make_axis_vectors A B C).2.2 = v3zero) := by
  refine ⟨fun h => ⟨?_, (vnorm_eq_zero_iff _).mp h⟩,
    fun h => ⟨?_, (vnorm_eq_zero_iff _).mp h⟩,
    fun h => ⟨?_, (vnorm_eq_zero_iff _).mp h⟩, fun t ht => ?_⟩
  · simp only [make_axis_vectors]
    rw [if_neg (by rw [h]; exact lt_irrefl 0)]
  · simp only [make_axis_vectors]
    rw [if_neg (by rw [h]; exact lt_irrefl 0)]
  · simp only [make_axis_vectors]
    rw [if_neg (by rw [h]; exact lt_irrefl 0)]
  · have hcr : cross3 (vsub A B) (vsub C B) = v3zero := by
      rw [ht]; exact cross3_smul_self _ _
    simp only [make_axis_vectors]
    rw [hcr, cross3_zero_right, vnorm_v3zero]
    constructor
    · rw [if_neg (lt_irrefl 0)]
    · rw [if_neg (lt_irrefl 0)]

/-- Witness for C8 at the concrete degenerate triple A = B = C = origin:
every normalization guard fires, every component is returned as the zero
vector, nothing is raised. -/
theorem c8_frame_total_zero_witness :
    ((make_axis_vectors v3zero v3zero v3zero).2.1 = vsub v3zero v3zero ∧
      vsub v3zero v3zero = v3zero) ∧
    ((make_axis_vectors v3zero v3zero v3zero).1 = v3zero ∧
      (make_axis_vectors v3zero v3zero v3zero).2.2 = v3zero) := by
  have hz : vsub v3zero v3zero = v3zero := by
    unfold vsub v3zero
    norm_num
  refine ⟨(c8_frame_total_zero v3zero v3zero v3zero).1 (by rw [hz]; exact vnorm_v3zero),
    (c8_frame_total_zero v3zero v3zero v3zero).2.2.2 0 ?_⟩
  rw [hz]
  unfold smul3 v3zero
  norm_num

/-! ## Claim C4: boundary discard of a drawn fragment -/

/-- Counterexample to claim C4 as stated: for the concrete two-residue
fragment with raveled torsions 1..6, the code discards the first AND THE
LAST TWO values (keeping `[2, 3, 4]`), not just the first and the last
(which would keep `[2, 3, 4, 5]`). -/
theorem c4_counterexample :
    interiorTorsions [(1, 2, 3), (4, 5, 6)] = [2, 3, 4] ∧
    claimInteriorTorsions [(1, 2, 3), (4, 5, 6)] = [2, 3, 4, 5] ∧
    interiorTorsions [(1, 2, 3), (4, 5, 6)] ≠
      claimInteriorTorsions [(1, 2, 3), (4, 5, 6)] := by
  have e1 : interiorTorsions [(1, 2, 3), (4, 5, 6)] = ([2, 3, 4] : List ℝ) := rfl
  have e2 : claimInteriorTorsions [(1, 2, 3), (4, 5, 6)] = ([2, 3, 4, 5] : List ℝ) := rfl
  refine ⟨e1, e2, ?_⟩
  rw [e1, e2]
  intro h
  have := congrArg List.length h
  simp at this

/-- Amended claim C4: for every fragment drawn from the pool, exactly the
first raveled torsion value and the LAST TWO raveled torsion values are
discarded; the remaining values, in order, form the interior sequence used
for atom placement. -/
theorem c4_interior_discard (frag : List (ℝ × ℝ × ℝ)) :
    interiorTorsions frag =
      ((ravel3 frag).drop 1).take ((ravel3 frag).length - 3) ∧
    (interiorTorsions frag).length = (ravel3 frag).length - 3 := by
  unfold interiorTorsions
  constructor
  · rw [List.dropLast_eq_take, List.dropLast_eq_take, List.take_take,
      List.length_take, List.length_drop]
    congr 1
    omega
  · rw [List.length_dropLast, List.length_dropLast, List.length_drop]
    omega

/-! ## Evaluation helpers for `make_coord` -/

theorem matmul3_AXIS (m : M3) : matmul3 m AXIS_111 = m := by
  simp only [matmul3, AXIS_111, vecmat, smul3, vadd, Prod.ext_iff]
  norm_num

theorem transpose3_transpose3 (m : M3) : transpose3 (transpose3 m) = m := rfl

/-- `make_coord` rewritten through the frame rows `b = [AB, -perp, parallel]`
of `rotation_to_plane`: the double transpose and the product with the
identity `AXIS_111` cancel. -/
theorem make_coord_eq (theta phi distance : ℝ) (parent xaxis yaxis : V3) :
    make_coord theta phi distance parent xaxis yaxis =
      vadd (vecmat (make_coord_from_angles theta phi distance)
        ((make_axis_vectors parent xaxis yaxis).2.1,
         smul3 (-1) (make_axis_vectors parent xaxis yaxis).2.2,
         (make_axis_vectors parent xaxis yaxis).1)) parent := by
  simp only [make_coord, rotation_to_plane, transpose3_transpose3, matmul3_AXIS]

/-- The frame of the seed C-atom placement: parent CA at distance 1 on the
x axis, xaxis the origin, yaxis the dummy `(0, 1, 0)`. -/
theorem axis_seed :
    make_axis_vectors ((1 : ℝ), 0, 0) (0, 0, 0) (0, 1, 0) =
      (((0 : ℝ), (0 : ℝ), (1 : ℝ)), ((1 : ℝ), (0 : ℝ), (0 : ℝ)),
        ((0 : ℝ), (-1 : ℝ), (0 : ℝ))) := by
  norm_num [make_axis_vectors, vsub, cross3, vnorm, dot3, sdiv, Real.sqrt_one,
    Prod.ext_iff]

/-- The frame of a placement whose three reference points lie on the x axis
one unit apart: the normal and perpendicular components degenerate to the
zero vector. -/
theorem axis_collinear_x (x : ℝ) :
    make_axis_vectors ((x + 2 : ℝ), 0, 0) (x + 1, 0, 0) (x, 0, 0) =
      (((0 : ℝ), (0 : ℝ), (0 : ℝ)), ((1 : ℝ), (0 : ℝ), (0 : ℝ)),
        ((0 : ℝ), (0 : ℝ), (0 : ℝ))) := by
  have hAB : vsub ((x + 2 : ℝ), (0 : ℝ), (0 : ℝ)) (x + 1, 0, 0) = (1, 0, 0) := by
    simp only [vsub, Prod.ext_iff]
    norm_num
  have hCB : vsub ((x : ℝ), (0 : ℝ), (0 : ℝ)) (x + 1, 0, 0) = (-1, 0, 0) := by
    simp only [vsub, Prod.ext_iff]
    norm_num
  simp only [make_axis_vectors, hAB, hCB]
  norm_num [cross3, vnorm, dot3, sdiv, Real.sqrt_one, Real.sqrt_zero, Prod.ext_iff]

/-- Placement of the next atom when the three reference atoms lie on the
x axis one unit apart and the torsion is 0: the new atom lands one unit
further along the x axis, for EVERY bend angle `theta` (the degenerate frame
makes the bend argument invisible). -/
theorem place_collinear (x theta : ℝ) :
    make_coord_Q ((x : ℝ), 0, 0) (x + 1, 0, 0) (x + 2, 0, 0) 1 theta 0 =
      ((x + 3 : ℝ), 0, 0) := by
  rw [make_coord_Q, make_coord_eq, axis_collinear_x]
  norm_num [make_coord_from_angles, vecmat, smul3, vadd, Prod.ext_iff]
  ring

/-- The seed chain under the concrete constants `P₀`: N at the origin, CA at
`(1, 0, 0)`, and the C placement, whose torsion argument is 0, lands at
`(2, 0, 0)` regardless of the bend argument. -/
theorem seedChain_P₀ :
    seedChain P₀ = [((0 : ℝ), (0 : ℝ), (0 : ℝ)), ((1 : ℝ), (0 : ℝ), (0 : ℝ)),
      ((2 : ℝ), (0 : ℝ), (0 : ℝ))] := by
  have h : make_coord_Q ((0 : ℝ), 1, 0) (0, 0, 0) (1, 0, 0) 1 (Real.pi - 1) 0 =
      ((2 : ℝ), 0, 0) := by
    rw [make_coord_Q, make_coord_eq, axis_seed]
    norm_num [make_coord_from_angles, vecmat, smul3, vadd, Prod.ext_iff]
  simp only [seedChain, P₀]
  rw [h]

/-! ## Claim C10: both clash predicates read exactly the boundary windows -/

/-- Claim C10: both clash operations depend only on the residues of the
settled chain below index `len(last_chain) - 2` and on the residues of the
current chain at indices strictly greater than `len(last_chain)`; the two
trailing settled residues and the first residue beyond the settled length
never enter any comparison: replacing everything outside the two windows
(keeping the settled length) changes neither result. -/
theorem c10_windowing (current current' last last' : List (List V3))
    (hlen : last'.length = last.length)
    (hset : last'.take (last'.length - 2) = last.take (last.length - 2))
    (hnew : current'.drop (last.length + 1) = current.drop (last.length + 1)) :
    clash_found_vectorized current' last' = clash_found_vectorized current last ∧
    clash_found current' last' = clash_found current last := by
  unfold clash_found_vectorized clash_found
  rw [hset, hlen, hnew]
  exact ⟨rfl, rfl⟩

/-- Witness for C10: a concrete pair of chain pairs that agree only on the
compared windows (settled window `[R]`, new window `[R]`) yet get identical
results from both operations. -/
theorem c10_windowing_witness :
    clash_found_vectorized
        [[((0 : ℝ), 0, 0)], [((9 : ℝ), 9, 9)], [((8 : ℝ), 8, 8)], [], [((0 : ℝ), 0, 0)]]
        [[((0 : ℝ), 0, 0)], [((7 : ℝ), 7, 7)], [((6 : ℝ), 6, 6)]] =
      clash_found_vectorized
        [[], [], [], [], [((0 : ℝ), 0, 0)]]
        [[((0 : ℝ), 0, 0)], [], []] ∧
    clash_found
        [[((0 : ℝ), 0, 0)], [((9 : ℝ), 9, 9)], [((8 : ℝ), 8, 8)], [], [((0 : ℝ), 0, 0)]]
        [[((0 : ℝ), 0, 0)], [((7 : ℝ), 7, 7)], [((6 : ℝ), 6, 6)]] =
      clash_found
        [[], [], [], [], [((0 : ℝ), 0, 0)]]
        [[((0 : ℝ), 0, 0)], [], []] := by
  exact c10_windowing _ _ _ _ (by simp) (by simp) (by simp)

/-! ## Claim C5: degenerate frames are NOT rejected by the caller -/

/-- Claim C5 evaluated at the failing input: for the collinear reference
triple `(0,0,0), (1,0,0), (2,0,0)` the frame normal is the zero vector, yet
`make_coord` returns the coordinate `(-1, 0, 0)` computed from the
rank-deficient frame instead of rejecting the placement, and the growth loop
appends an atom computed from such a degenerate frame (the references here
are the three seed atoms of `P₀`) without any check or state transition. -/
theorem c5_degenerate_not_rejected :
    (make_axis_vectors ((0 : ℝ), 0, 0) (1, 0, 0) (2, 0, 0)).1 = v3zero ∧
    make_coord 0 0 1 ((0 : ℝ), 0, 0) (1, 0, 0) (2, 0, 0) = ((-1 : ℝ), 0, 0) ∧
    (growFrag P₀ 6 [((0 : ℝ), 0, 0), (1, 0, 0), (2, 0, 0)] [] [0]).1 =
      [((0 : ℝ), 0, 0), ((1 : ℝ), 0, 0), ((2 : ℝ), 0, 0), ((3 : ℝ), 0, 0)] := by
  have haxis : make_axis_vectors ((0 : ℝ), 0, 0) (1, 0, 0) (2, 0, 0) =
      (((0 : ℝ), (0 : ℝ), (0 : ℝ)), ((-1 : ℝ), (0 : ℝ), (0 : ℝ)),
        ((0 : ℝ), (0 : ℝ), (0 : ℝ))) := by
    norm_num [make_axis_vectors, vsub, cross3, vnorm, dot3, sdiv, Real.sqrt_one,
      Prod.ext_iff]
  refine ⟨by rw [haxis]; rfl, ?_, ?_⟩
  · rw [make_coord_eq, haxis]
    norm_num [make_coord_from_angles, vecmat, smul3, vadd, Prod.ext_iff]
  · have hp : make_coord_Q ((0 : ℝ), 0, 0) (1, 0, 0) (2, 0, 0) 1
        (Real.pi - 2) 0 = ((3 : ℝ), 0, 0) := by
      have := place_collinear 0 (Real.pi - 2)
      norm_num at this
      exact this
    simp [growFrag, placeNext, bondLenCyc, bondBendCyc, P₀, hp, -Prod.mk_zero_zero]

/-! ## Claim C3: the (bond length, bend) pairs consumed by the growth loop -/

/-- Counterexample to claim C3 as stated: running the builder on the concrete
constants `P₀` (whose three bend averages 1, 2, 3 are pairwise distinct) with
a two-residue fragment of zero torsions, the first placement consumes the
bend `pi - average_CA_C_Np1` (= pi - 2), i.e. the CA-C-N(+1)-derived bend,
whereas the pairing asserted by the claim would give the C-N-CA-derived bend
`pi - average_Cm1_N_CA` (= pi - 3); the trace of the three placements shows
the actual bend cycle. -/
theorem c3_counterexample :
    build P₀ 6 (fun _ => [((0 : ℝ), (0 : ℝ), (0 : ℝ)), ((0 : ℝ), (0 : ℝ), (0 : ℝ))]) 2 =
      some ([((0 : ℝ), (0 : ℝ), (0 : ℝ)), ((1 : ℝ), (0 : ℝ), (0 : ℝ)),
          ((2 : ℝ), (0 : ℝ), (0 : ℝ)), ((3 : ℝ), (0 : ℝ), (0 : ℝ)),
          ((4 : ℝ), (0 : ℝ), (0 : ℝ)), ((5 : ℝ), (0 : ℝ), (0 : ℝ))],
        [⟨((0 : ℝ), 0, 0), ((1 : ℝ), 0, 0), ((2 : ℝ), 0, 0), 1, Real.pi - 2, 0⟩,
         ⟨((1 : ℝ), 0, 0), ((2 : ℝ), 0, 0), ((3 : ℝ), 0, 0), 1, Real.pi - 3, 0⟩,
         ⟨((2 : ℝ), 0, 0), ((3 : ℝ), 0, 0), ((4 : ℝ), 0, 0), 1, Real.pi - 1, 0⟩]) ∧
    claimedBondBendCyc P₀ 0 = Real.pi - 3 ∧
    Real.pi - 2 ≠ Real.pi - 3 := by
  have hp0 : make_coord_Q ((0 : ℝ), 0, 0) (1, 0, 0) (2, 0, 0) 1
      (Real.pi - 2) 0 = ((3 : ℝ), 0, 0) := by
    have := place_collinear 0 (Real.pi - 2)
    norm_num at this
    exact this
  have hp1 : make_coord_Q ((1 : ℝ), 0, 0) (2, 0, 0) (3, 0, 0) 1
      (Real.pi - 3) 0 = ((4 : ℝ), 0, 0) := by
    have := place_collinear 1 (Real.pi - 3)
    norm_num at this
    exact this
  have hp2 : make_coord_Q ((2 : ℝ), 0, 0) (3, 0, 0) (4, 0, 0) 1
      (Real.pi - 1) 0 = ((5 : ℝ), 0, 0) := by
    have := place_collinear 2 (Real.pi - 1)
    norm_num at this
    exact this
  have f1 : P₀.distance_C_Np1 = 1 := rfl
  have f2 : P₀.distance_N_CA = 1 := rfl
  have f3 : P₀.distance_CA_C = 1 := rfl
  have f5 : P₀.average_CA_C_Np1 = 2 := rfl
  have f6 : P₀.average_Cm1_N_CA = 3 := rfl
  have f4 : P₀.average_N_CA_C = 1 := rfl
  refine ⟨?_, rfl, ?_⟩
  · simp [build, growLoop, seedChain_P₀, interiorTorsions, ravel3, growFrag,
      placeNext, bondLenCyc, bondBendCyc, f1, f2, f3, f4, f5, f6,
      hp0, hp1, hp2, -Prod.mk_zero_zero]
  · intro h
    have : (2 : ℝ) = 3 := by linarith
    norm_num at this

/-- Amended claim C3: for each interior torsion value, in order, the growth
loop consumes the next (bond length, bend) pair from the fixed repeating
3-cycle pairing the C-to-N bond with the CA-C-N(+1)-derived bend, the
N-to-CA bond with the C(-1)-N-CA-derived bend, and the CA-to-C bond with the
N-CA-C-derived bend (the bend cycle of the claim rotated by one position),
and appends exactly one atom via the placement primitive applied to the
three most recently placed atoms. -/
theorem c3_growth_step (P : BuildConsts) (bbLen : ℕ) (bb : List V3)
    (tr : List PCall) (t : ℝ) (ts : List ℝ) (h : bb.length < bbLen) :
    growFrag P bbLen bb tr (t :: ts) =
      growFrag P bbLen
        (bb ++ [make_coord_Q (bb.getD (bb.length - 3) v3zero)
          (bb.getD (bb.length - 2) v3zero) (bb.getD (bb.length - 1) v3zero)
          ([P.distance_C_Np1, P.distance_N_CA, P.distance_CA_C].getD
            ((bb.length - 3) % 3) 0)
          ([Real.pi - P.average_CA_C_Np1, Real.pi - P.average_Cm1_N_CA,
            Real.pi - P.average_N_CA_C].getD ((bb.length - 3) % 3) 0) t])
        (tr ++ [⟨bb.getD (bb.length - 3) v3zero, bb.getD (bb.length - 2) v3zero,
          bb.getD (bb.length - 1) v3zero,
          [P.distance_C_Np1, P.distance_N_CA, P.distance_CA_C].getD
            ((bb.length - 3) % 3) 0,
          [Real.pi - P.average_CA_C_Np1, Real.pi - P.average_Cm1_N_CA,
            Real.pi - P.average_N_CA_C].getD ((bb.length - 3) % 3) 0, t⟩])
        ts := by
  simp only [growFrag, placeNext, bondLenCyc, bondBendCyc, if_pos h]

/-- Witness for the amended claim C3, at the seed chain of `P₀` with one
torsion value 0: the placement consumed the pair
`(distance_C_Np1, pi - average_CA_C_Np1)` and referenced the three seed
atoms. -/
theorem c3_growth_step_witness :
    (([((0 : ℝ), (0 : ℝ), (0 : ℝ)), ((1 : ℝ), (0 : ℝ), (0 : ℝ)),
        ((2 : ℝ), (0 : ℝ), (0 : ℝ))] : List V3).length < 6) ∧
    growFrag P₀ 6 [((0 : ℝ), (0 : ℝ), (0 : ℝ)), ((1 : ℝ), (0 : ℝ), (0 : ℝ)),
        ((2 : ℝ), (0 : ℝ), (0 : ℝ))] [] [(0 : ℝ)] =
      growFrag P₀ 6
        ([((0 : ℝ), (0 : ℝ), (0 : ℝ)), ((1 : ℝ), (0 : ℝ), (0 : ℝ)),
          ((2 : ℝ), (0 : ℝ), (0 : ℝ))] ++
          [make_coord_Q (([((0 : ℝ), (0 : ℝ), (0 : ℝ)), ((1 : ℝ), (0 : ℝ), (0 : ℝ)),
              ((2 : ℝ), (0 : ℝ), (0 : ℝ))] : List V3).getD 0 v3zero)
            (([((0 : ℝ), (0 : ℝ), (0 : ℝ)), ((1 : ℝ), (0 : ℝ), (0 : ℝ)),
              ((2 : ℝ), (0 : ℝ), (0 : ℝ))] : List V3).getD 1 v3zero)
            (([((0 : ℝ), (0 : ℝ), (0 : ℝ)), ((1 : ℝ), (0 : ℝ), (0 : ℝ)),
              ((2 : ℝ), (0 : ℝ), (0 : ℝ))] : List V3).getD 2 v3zero)
            P₀.distance_C_Np1 (Real.pi - P₀.average_CA_C_Np1) 0])
        ([] ++ [⟨(([((0 : ℝ), (0 : ℝ), (0 : ℝ)), ((1 : ℝ), (0 : ℝ), (0 : ℝ)),
              ((2 : ℝ), (0 : ℝ), (0 : ℝ))] : List V3).getD 0 v3zero),
          (([((0 : ℝ), (0 : ℝ), (0 : ℝ)), ((1 : ℝ), (0 : ℝ), (0 : ℝ)),
              ((2 : ℝ), (0 : ℝ), (0 : ℝ))] : List V3).getD 1 v3zero),
          (([((0 : ℝ), (0 : ℝ), (0 : ℝ)), ((1 : ℝ), (0 : ℝ), (0 : ℝ)),
              ((2 : ℝ), (0 : ℝ), (0 : ℝ))] : List V3).getD 2 v3zero),
          P₀.distance_C_Np1, Real.pi - P₀.average_CA_C_Np1, (0 : ℝ)⟩])
        [] := by
  refine ⟨by norm_num, ?_⟩
  have h := c3_growth_step P₀ 6 [((0 : ℝ), (0 : ℝ), (0 : ℝ)),
    ((1 : ℝ), (0 : ℝ), (0 : ℝ)), ((2 : ℝ), (0 : ℝ), (0 : ℝ))] [] 0 []
    (by norm_num)
  simpa using h

/-! ## Claim C6: termination of the growth loop and absence of rollback -/

/-- Helper: the length of a seed chain is 3. -/
theorem seedChain_length (P : BuildConsts) : (seedChain P).length = 3 := rfl

/-- Helper: processing one fragment fills the chain up to
`min bbLen (bb.length + ts.length)` and never removes or changes the atoms
already present (the result restricted to the old length is the old chain):
atoms appended before an overflow are kept. -/
theorem growFrag_length_take (P : BuildConsts) (bbLen : ℕ) :
    ∀ (ts : List ℝ) (bb : List V3) (tr : List PCall), bb.length ≤ bbLen →
      (growFrag P bbLen bb tr ts).1.length = min bbLen (bb.length + ts.length) ∧
      (growFrag P bbLen bb tr ts).1.take bb.length = bb := by
  intro ts
  induction ts with
  | nil =>
    intro bb tr h
    refine ⟨?_, List.take_length bb⟩
    simp only [growFrag, List.length_nil, Nat.add_zero]
    omega
  | cons t ts ih =>
    intro bb tr h
    by_cases hlt : bb.length < bbLen
    · simp only [growFrag, if_pos hlt]
      have hlen : (placeNext P bb t).1.length = bb.length + 1 := by
        simp [placeNext]
      have h2 := ih (placeNext P bb t).1 (tr ++ [(placeNext P bb t).2]) (by omega)
      constructor
      · rw [h2.1, hlen]
        simp only [List.length_cons]
        omega
      · have h3 : (growFrag P bbLen (placeNext P bb t).1
            (tr ++ [(placeNext P bb t).2]) ts).1.take bb.length =
            ((growFrag P bbLen (placeNext P bb t).1
              (tr ++ [(placeNext P bb t).2]) ts).1.take
                (placeNext P bb t).1.length).take bb.length := by
          rw [List.take_take]
          congr 1
          omega
        rw [h3, h2.2]
        simp only [placeNext]
        exact List.take_left _ _
    · simp only [growFrag, if_neg hlt]
      refine ⟨?_, List.take_length bb⟩
      simp only [List.length_cons]
      omega

/-- Helper: with a non-empty torsion list and a full chain, the fragment loop
stops (the first assignment raises `IndexError`). -/
theorem growFrag_stops_when_full (P : BuildConsts) (bbLen : ℕ) (ts : List ℝ)
    (bb : List V3) (tr : List PCall) (hne : ts ≠ [])
    (h : ¬ bb.length < bbLen) : (growFrag P bbLen bb tr ts).2.2 = true := by
  cases ts with
  | nil => exact absurd rfl hne
  | cons t ts => simp [growFrag, if_neg h]

/-- Helper: the loop reaches the overflow within `bbLen + 1` draws once every
drawn fragment contributes at least one torsion. -/
theorem growLoop_terminates (P : BuildConsts) (bbLen : ℕ)
    (draws : ℕ → List (ℝ × ℝ × ℝ))
    (hfrag : ∀ n, interiorTorsions (draws n) ≠ []) :
    ∀ (fuel n : ℕ) (bb : List V3) (tr : List PCall), bb.length ≤ bbLen →
      bbLen + 1 ≤ fuel + bb.length →
      (growLoop P bbLen draws fuel n bb tr).isSome = true := by
  intro fuel
  induction fuel with
  | zero =>
    intro n bb tr h1 h2
    omega
  | succ fuel ih =>
    intro n bb tr h1 h2
    have hspec := growFrag_length_take P bbLen (interiorTorsions (draws n)) bb tr h1
    have hts : 1 ≤ (interiorTorsions (draws n)).length :=
      List.length_pos.mpr (hfrag n)
    simp only [growLoop]
    rcases hgf : growFrag P bbLen bb tr (interiorTorsions (draws n)) with ⟨bb2, tr2, st⟩
    rw [hgf] at hspec
    cases st with
    | true => simp
    | false =>
      have hlt : bb.length < bbLen := by
        by_contra hge
        have := growFrag_stops_when_full P bbLen (interiorTorsions (draws n))
          bb tr (hfrag n) hge
        rw [hgf] at this
        simp at this
      simp only [Bool.false_eq_true, if_false]
      exact ih (n + 1) bb2 tr2 (by simp at hspec; omega) (by simp at hspec; omega)

/-- Counterexample to claim C6 as stated: with the non-empty fragment pool
consisting of the single one-residue fragment `[(0, 0, 0)]` — whose raveled
interior `[1:-2]` slice is empty — the growth loop never terminates: no
placement is ever attempted, no `IndexError` can fire, and the `while True`
loop spins forever (no fuel suffices). -/
theorem c6_counterexample :
    ¬ ∃ fuel : ℕ, (build P₀ 6
      (fun _ => [((0 : ℝ), (0 : ℝ), (0 : ℝ))]) fuel).isSome = true := by
  have hint : interiorTorsions [((0 : ℝ), (0 : ℝ), (0 : ℝ))] = [] := rfl
  have key : ∀ fuel n (bb : List V3) (tr : List PCall),
      growLoop P₀ 6 (fun _ => [((0 : ℝ), (0 : ℝ), (0 : ℝ))]) fuel n bb tr = none := by
    intro fuel
    induction fuel with
    | zero => intro n bb tr; rfl
    | succ fuel ih =>
      intro n bb tr
      simp only [growLoop, hint, growFrag, Bool.false_eq_true, if_false]
      exact ih (n + 1) bb tr
  rintro ⟨fuel, hf⟩
  simp only [build, key] at hf
  simp at hf

/-- Amended claim C6: provided every drawable fragment contributes at least
one interior torsion (any fragment of at least two residues does), the
growth loop terminates for every target budget of at least the three seed
atoms; and whenever growth stops mid-fragment because the next atom would
overflow the budget, the atoms already appended are NOT rolled back: the
final chain still begins with every previously placed atom and has filled
the budget to `min bbLen (bb.length + ts.length)`. -/
theorem c6_terminates_no_rollback (P : BuildConsts) (bbLen : ℕ)
    (draws : ℕ → List (ℝ × ℝ × ℝ))
    (hfrag : ∀ n, interiorTorsions (draws n) ≠ [])
    (hseed : 3 ≤ bbLen) :
    (∃ fuel, (build P bbLen draws fuel).isSome = true) ∧
    (∀ (bb : List V3) (tr : List PCall) (ts : List ℝ), bb.length ≤ bbLen →
      (growFrag P bbLen bb tr ts).1.length = min bbLen (bb.length + ts.length) ∧
      (growFrag P bbLen bb tr ts).1.take bb.length = bb) := by
  constructor
  · refine ⟨bbLen + 1, ?_⟩
    apply growLoop_terminates P bbLen draws hfrag (bbLen + 1) 0 (seedChain P) []
    · rw [seedChain_length]
      omega
    · rw [seedChain_length]
      omega
  · intro bb tr ts h
    exact growFrag_length_take P bbLen ts bb tr h

/-- Witness for the amended claim C6: concrete constants `P₀`, budget 6 and a
pool holding one two-residue fragment (three interior torsions). -/
theorem c6_terminates_no_rollback_witness :
    (∃ fuel, (build P₀ 6 (fun _ => [((0 : ℝ), (0 : ℝ), (0 : ℝ)),
      ((0 : ℝ), (0 : ℝ), (0 : ℝ))]) fuel).isSome = true) ∧
    (∀ (bb : List V3) (tr : List PCall) (ts : List ℝ), bb.length ≤ 6 →
      (growFrag P₀ 6 bb tr ts).1.length = min 6 (bb.length + ts.length) ∧
      (growFrag P₀ 6 bb tr ts).1.take bb.length = bb) :=
  c6_terminates_no_rollback P₀ 6
    (fun _ => [((0 : ℝ), (0 : ℝ), (0 : ℝ)), ((0 : ℝ), (0 : ℝ), (0 : ℝ))])
    (fun n => by
      have : interiorTorsions [((0 : ℝ), (0 : ℝ), (0 : ℝ)),
          ((0 : ℝ), (0 : ℝ), (0 : ℝ))] = [0, 0, 0] := rfl
      rw [this]
      simp)
    (by norm_num)

/-! ## Characterizations of the two clash strategies -/

/-- Helper: a nonnegative number below the square root of its own square. -/
theorem le_sqrt_of_sq_le (a b : ℝ) (ha : 0 ≤ a) (h : a ^ 2 ≤ b) :
    a ≤ Real.sqrt b := by
  rw [Real.le_sqrt ha (le_trans (sq_nonneg a) h)]
  exact h

/-- Helper: the flattened settled window of all-4-atom residues has length
`4 * (number of residues)`. -/
theorem flatten_length_four (S : List (List V3)) (h4 : ∀ r ∈ S, r.length = 4) :
    S.flatten.length = 4 * S.length := by
  induction S with
  | nil => simp
  | cons r rs ih =>
    simp only [List.flatten_cons, List.length_append, List.length_cons]
    rw [h4 r (List.mem_cons_self r rs), ih (fun x hx => h4 x (List.mem_cons_of_mem r hx))]
    ring

/-- Helper: under the guards that actually hold in the canonical setting —
both windows non-empty and every settled residue contributing exactly 4
atoms — the batched strategy reduces to one `any` over the flattened
distance matrix against the tiled radius table. -/
theorem clash_found_vectorized_flat (current last : List (List V3))
    (hS4 : ∀ r ∈ last.take (last.length - 2), r.length = 4)
    (hSne : last.take (last.length - 2) ≠ [])
    (hNne : current.drop (last.length + 1) ≠ []) :
    clash_found_vectorized current last =
      some (decide (∃ i j,
        i < (last.take (last.length - 2)).flatten.length ∧
        j < (current.drop (last.length + 1)).flatten.length ∧
        edist3 ((last.take (last.length - 2)).flatten.getD i v3zero)
            ((current.drop (last.length + 1)).flatten.getD j v3zero) <
          vdwAt (i % 4) + vdwAt (j % 4))) := by
  have hempty : ((last.take (last.length - 2)).isEmpty = true ∨
      (current.drop (last.length + 1)).isEmpty = true) = False := by
    simp [List.isEmpty_eq_false.mpr hSne, List.isEmpty_eq_false.mpr hNne]
  have hmod : (last.take (last.length - 2)).flatten.length =
      4 * (last.take (last.length - 2)).length := flatten_length_four _ hS4
  have htiled : tiledRows (last.take (last.length - 2)).flatten.length =
      (last.take (last.length - 2)).flatten.length := by
    rw [hmod]
    unfold tiledRows
    omega
  simp only [clash_found_vectorized, hempty, if_false, bcastAny, htiled,
    true_or, and_self, if_true]
  congr 1
  rw [decide_eq_decide]
  constructor
  · rintro ⟨i, j, hi, hj, hd⟩
    rw [max_self] at hi hj
    refine ⟨i, j, hi, hj, ?_⟩
    rwa [Nat.mod_eq_of_lt hi, Nat.mod_eq_of_lt hj] at hd
  · rintro ⟨i, j, hi, hj, hd⟩
    refine ⟨i, j, by rwa [max_self], by rwa [max_self], ?_⟩
    rwa [Nat.mod_eq_of_lt hi, Nat.mod_eq_of_lt hj]

/-! ## Claim C7: strict-inequality clash semantics -/

/-- Claim C7: the batched clash predicate uses STRICT inequality against the
radius-sum table built from `VDW = [1.55, 1.7, 1.7, 1.52]` (N, CA, C, O):
whenever every compared atom pair, including one at exactly its allowed
radius sum, is at distance at least the radius sum, the result is
`False` (no clash); and whenever some pair is strictly closer than its
radius sum the result is `True`. -/
theorem c7_strict_boundary (current last : List (List V3))
    (hS4 : ∀ r ∈ last.take (last.length - 2), r.length = 4)
    (hSne : last.take (last.length - 2) ≠ [])
    (hNne : current.drop (last.length + 1) ≠ []) :
    ((∀ i j, i < (last.take (last.length - 2)).flatten.length →
        j < (current.drop (last.length + 1)).flatten.length →
        vdwAt (i % 4) + vdwAt (j % 4) ≤
          edist3 ((last.take (last.length - 2)).flatten.getD i v3zero)
            ((current.drop (last.length + 1)).flatten.getD j v3zero)) →
      clash_found_vectorized current last = some false) ∧
    ((∃ i j, i < (last.take (last.length - 2)).flatten.length ∧
        j < (current.drop (last.length + 1)).flatten.length ∧
        edist3 ((last.take (last.length - 2)).flatten.getD i v3zero)
            ((current.drop (last.length + 1)).flatten.getD j v3zero) <
          vdwAt (i % 4) + vdwAt (j % 4)) →
      clash_found_vectorized current last = some true) := by
  rw [clash_found_vectorized_flat current last hS4 hSne hNne]
  constructor
  · intro hall
    congr 1
    rw [decide_eq_false_iff_not]
    rintro ⟨i, j, hi, hj, hd⟩
    exact absurd hd (not_lt.mpr (hall i j hi hj))
  · intro hex
    congr 1
    rwa [decide_eq_true_eq]

/-- Witness for C7 on concrete groups.  All atoms sit on the x axis.  In the
first configuration the closest pair is the settled N at the origin and the
new N at `x = 3.1`, exactly the radius sum `1.55 + 1.55`; every other pair is
farther than `3.4`; no clash is reported.  In the second configuration the
new N moves to `x = 3`, strictly inside the radius sum, and a clash is
reported. -/
theorem c7_strict_boundary_witness :
    clash_found_vectorized
        [[], [], [], [],
          [((3.1 : ℝ), 0, 0), ((13.1 : ℝ), 0, 0), ((23.1 : ℝ), 0, 0), ((33.1 : ℝ), 0, 0)]]
        [[((0 : ℝ), 0, 0), ((-10 : ℝ), 0, 0), ((-20 : ℝ), 0, 0), ((-30 : ℝ), 0, 0)], [], []] =
      some false ∧
    clash_found_vectorized
        [[], [], [], [],
          [((3 : ℝ), 0, 0), ((13.1 : ℝ), 0, 0), ((23.1 : ℝ), 0, 0), ((33.1 : ℝ), 0, 0)]]
        [[((0 : ℝ), 0, 0), ((-10 : ℝ), 0, 0), ((-20 : ℝ), 0, 0), ((-30 : ℝ), 0, 0)], [], []] =
      some true := by
  constructor
  · refine (c7_strict_boundary _ _ (by simp) (by simp) (by simp)).1 ?_
    intro i j hi hj
    simp only [List.length_take, List.length_cons, List.length_nil,
      List.flatten_cons, List.flatten_nil, List.append_nil, List.length_append,
      List.take_cons] at hi hj ⊢
    norm_num at hi hj
    interval_cases i <;> interval_cases j <;>
      (simp [edist3, vdwAt, VDW];
       exact le_sqrt_of_sq_le _ _ (by norm_num) (by norm_num))
  · refine (c7_strict_boundary _ _ (by simp) (by simp) (by simp)).2 ?_
    refine ⟨0, 0, by simp, by simp, ?_⟩
    have h9 : Real.sqrt 9 = 3 := by
      rw [show (9 : ℝ) = 3 ^ 2 by norm_num]
      exact Real.sqrt_sq (by norm_num)
    simp only [edist3, vdwAt, VDW]
    norm_num
    rw [h9]
    norm_num

/-! ## Claim C2: equivalence of the batched and incremental strategies -/

/-- Helper: one residue-block comparison of the incremental strategy
computes exactly the block clash predicate, for the two block shapes the
canonical atom order produces (`4 x 4` through the `try` branch, `4 x 3`
through the `except` branch with the transposed sliced table). -/
theorem blockCompare_eq (prev newr : List V3) (hp : prev.length = 4)
    (hr : newr.length = 4 ∨ newr.length = 3) :
    blockCompare prev newr = some (decide (BlockClash prev newr)) := by
  rcases hr with hr | hr
  · unfold blockCompare bcastAny
    rw [hp, hr]
    norm_num
    unfold BlockClash
    rw [hp, hr]
    constructor
    · rintro ⟨i, hi, j, hj, hd⟩
      exact ⟨i, j, hi, hj, by
        simpa [Nat.mod_eq_of_lt hi, Nat.mod_eq_of_lt hj] using hd⟩
    · rintro ⟨i, j, hi, hj, hd⟩
      exact ⟨i, hi, j, hj, by
        simpa [Nat.mod_eq_of_lt hi, Nat.mod_eq_of_lt hj] using hd⟩
  · unfold blockCompare bcastAny
    rw [hp, hr]
    norm_num
    unfold BlockClash
    rw [hp, hr]
    constructor
    · rintro ⟨i, hi, j, hj, hd⟩
      exact ⟨i, j, hi, hj, by
        simpa [allowedT, Nat.mod_eq_of_lt hi, Nat.mod_eq_of_lt hj,
          add_comm] using hd⟩
    · rintro ⟨i, j, hi, hj, hd⟩
      exact ⟨i, hi, j, hj, by
        simpa [allowedT, Nat.mod_eq_of_lt hi, Nat.mod_eq_of_lt hj,
          add_comm] using hd⟩

/-- Helper: the inner loop of the incremental strategy over the new residues
short-circuits to the existence of a clashing new residue. -/
theorem scanNew_eq (prev : List V3) (hp : prev.length = 4) :
    ∀ news : List (List V3), (∀ r ∈ news, r.length = 4 ∨ r.length = 3) →
      scanNew prev news = some (decide (∃ r ∈ news, BlockClash prev r)) := by
  intro news
  induction news with
  | nil => intro _; simp [scanNew]
  | cons r rs ih =>
    intro hshape
    rw [scanNew, blockCompare_eq prev r hp (hshape r (List.mem_cons_self r rs))]
    by_cases hb : BlockClash prev r
    · simp [hb]
    · rw [decide_eq_false hb]
      show scanNew prev rs = _
      rw [ih (fun x hx => hshape x (List.mem_cons_of_mem r hx))]
      congr 1
      rw [decide_eq_decide]
      simp [List.exists_mem_cons, hb]

/-- Helper: the outer loop of the incremental strategy over the settled
residues short-circuits to the existence of a clashing residue pair. -/
theorem scanSeen_eq :
    ∀ S news : List (List V3), (∀ p ∈ S, p.length = 4) →
      (∀ r ∈ news, r.length = 4 ∨ r.length = 3) →
      scanSeen S news =
        some (decide (∃ p ∈ S, ∃ r ∈ news, BlockClash p r)) := by
  intro S
  induction S with
  | nil => intro news _ _; simp [scanSeen]
  | cons p ps ih =>
    intro news hS hshape
    rw [scanSeen, scanNew_eq p (hS p (List.mem_cons_self p ps)) news hshape]
    by_cases hb : ∃ r ∈ news, BlockClash p r
    · simp [hb]
    · rw [decide_eq_false hb]
      show scanSeen ps news = _
      rw [ih news (fun x hx => hS x (List.mem_cons_of_mem p hx)) hshape]
      congr 1
      rw [decide_eq_decide]
      simp [List.exists_mem_cons, hb]

/-- Helper: an indexed existential over a flattened residue list, with an
index predicate invariant under shifts by 4, is an existential over the
residues, provided every non-terminal residue has exactly 4 atoms. -/
theorem exists_flatten_blocks (Phi : ℕ → V3 → Prop)
    (hshift : ∀ i v, Phi (4 + i) v ↔ Phi i v) :
    ∀ N : List (List V3), (∀ r ∈ N.dropLast, r.length = 4) →
      ((∃ j, j < N.flatten.length ∧ Phi j (N.flatten.getD j v3zero)) ↔
        ∃ r ∈ N, ∃ j, j < r.length ∧ Phi j (r.getD j v3zero)) := by
  intro N
  induction N with
  | nil => simp
  | cons r rs ih =>
    intro h4
    rcases rs with _ | ⟨r2, rs2⟩
    · simp only [List.flatten_cons, List.flatten_nil, List.append_nil]
      constructor
      · rintro ⟨j, hj, hP⟩
        exact ⟨r, List.mem_singleton.mpr rfl, j, hj, hP⟩
      · rintro ⟨r2, hr2, j, hj, hP⟩
        rw [List.mem_singleton] at hr2
        subst hr2
        exact ⟨j, hj, hP⟩
    · have hr4 : r.length = 4 := h4 r (by rw [List.dropLast_cons₂]; exact List.mem_cons_self _ _)
      have h4r : ∀ x ∈ (r2 :: rs2).dropLast, x.length = 4 := fun x hx =>
        h4 x (by rw [List.dropLast_cons₂]; exact List.mem_cons_of_mem _ hx)
      constructor
      · rintro ⟨j, hj, hP⟩
        rw [List.flatten_cons, List.length_append] at hj
        by_cases hjr : j < r.length
        · rw [List.flatten_cons, List.getD_append _ _ _ _ hjr] at hP
          exact ⟨r, List.mem_cons_self _ _, j, hjr, hP⟩
        · push_neg at hjr
          rw [List.flatten_cons, List.getD_append_right _ _ _ _ hjr] at hP
          have hsplit : j = 4 + (j - r.length) := by omega
          set w := (r2 :: rs2).flatten.getD (j - r.length) v3zero with hw
          have hP2 : Phi (j - r.length) w := by
            rw [hsplit] at hP
            exact (hshift _ _).mp hP
          obtain ⟨r3, hr3, j3, hj3, hP3⟩ :=
            ((ih h4r).mp ⟨j - r.length, by omega, hP2⟩)
          exact ⟨r3, List.mem_cons_of_mem _ hr3, j3, hj3, hP3⟩
      · rintro ⟨r3, hr3, j, hj, hP⟩
        rcases List.mem_cons.mp hr3 with rfl | hr3
        · refine ⟨j, ?_, ?_⟩
          · rw [List.flatten_cons, List.length_append]
            omega
          · rw [List.flatten_cons, List.getD_append _ _ _ _ hj]
            exact hP
        · obtain ⟨j2, hj2, hP2⟩ := (ih h4r).mpr ⟨r3, hr3, j, hj, hP⟩
          refine ⟨r.length + j2, ?_, ?_⟩
          · rw [List.flatten_cons, List.length_append]
            omega
          · rw [List.flatten_cons, List.getD_append_right _ _ _ _ (by omega)]
            have he : r.length + j2 - r.length = j2 := by omega
            rw [he]
            set w := (r2 :: rs2).flatten.getD j2 v3zero with hw
            have he2 : r.length + j2 = 4 + j2 := by omega
            rw [he2]
            exact (hshift _ _).mpr hP2

/-- Helper: under the canonical shapes the batched strategy computes the
residue-blockwise clash existential. -/
theorem clash_found_vectorized_blocks (current last : List (List V3))
    (hS4 : ∀ r ∈ last.take (last.length - 2), r.length = 4)
    (hSne : last.take (last.length - 2) ≠ [])
    (hNne : current.drop (last.length + 1) ≠ [])
    (hN4 : ∀ r ∈ (current.drop (last.length + 1)).dropLast, r.length = 4)
    (hNshape : ∀ r ∈ current.drop (last.length + 1), r.length = 4 ∨ r.length = 3) :
    clash_found_vectorized current last =
      some (decide (∃ p ∈ last.take (last.length - 2),
        ∃ r ∈ current.drop (last.length + 1), BlockClash p r)) := by
  rw [clash_found_vectorized_flat current last hS4 hSne hNne]
  congr 1
  rw [decide_eq_decide]
  have hS4' : ∀ r ∈ (last.take (last.length - 2)).dropLast, r.length = 4 :=
    fun r hr => hS4 r (List.dropLast_subset _ hr)
  constructor
  · rintro ⟨i, j, hi, hj, hd⟩
    obtain ⟨sr, hsr, i2, hi2, hP⟩ :=
      (exists_flatten_blocks
        (fun i v => ∃ j, j < (current.drop (last.length + 1)).flatten.length ∧
          edist3 v ((current.drop (last.length + 1)).flatten.getD j v3zero) <
            vdwAt (i % 4) + vdwAt (j % 4))
        (fun i v => by simp [Nat.add_mod_left])
        (last.take (last.length - 2)) hS4').mp ⟨i, hi, j, hj, hd⟩
    obtain ⟨j2, hj2, hd2⟩ := hP
    obtain ⟨nr, hnr, j3, hj3, hd3⟩ :=
      (exists_flatten_blocks
        (fun j v => edist3 (sr.getD i2 v3zero) v <
          vdwAt (i2 % 4) + vdwAt (j % 4))
        (fun j v => by simp [Nat.add_mod_left])
        (current.drop (last.length + 1)) hN4).mp ⟨j2, hj2, hd2⟩
    have hi4 : i2 < 4 := by rw [← hS4 sr hsr]; exact hi2
    have hj4 : j3 < 4 := by
      rcases hNshape nr hnr with h | h <;> omega
    refine ⟨sr, hsr, nr, hnr, i2, j3, hi2, hj3, ?_⟩
    rwa [Nat.mod_eq_of_lt hi4, Nat.mod_eq_of_lt hj4] at hd3
  · rintro ⟨sr, hsr, nr, hnr, i, j, hi, hj, hd⟩
    have hi4 : i < 4 := by rw [← hS4 sr hsr]; exact hi
    have hj4 : j < 4 := by
      rcases hNshape nr hnr with h | h <;> omega
    have hd2 : edist3 (sr.getD i v3zero) (nr.getD j v3zero) <
        vdwAt (i % 4) + vdwAt (j % 4) := by
      rwa [Nat.mod_eq_of_lt hi4, Nat.mod_eq_of_lt hj4]
    obtain ⟨j2, hj2, hP2⟩ :=
      (exists_flatten_blocks
        (fun j v => edist3 (sr.getD i v3zero) v <
          vdwAt (i % 4) + vdwAt (j % 4))
        (fun j v => by simp [Nat.add_mod_left])
        (current.drop (last.length + 1)) hN4).mpr ⟨nr, hnr, j, hj, hd2⟩
    obtain ⟨i2, hi2, hP3⟩ :=
      (exists_flatten_blocks
        (fun i v => ∃ j, j < (current.drop (last.length + 1)).flatten.length ∧
          edist3 v ((current.drop (last.length + 1)).flatten.getD j v3zero) <
            vdwAt (i % 4) + vdwAt (j % 4))
        (fun i v => by simp [Nat.add_mod_left])
        (last.take (last.length - 2)) hS4').mpr ⟨sr, hsr, i, hi, j2, hj2, hP2⟩
    obtain ⟨j4, hj4', hd4⟩ := hP3
    exact ⟨i2, j4, hi2, hj4', hd4⟩

/-- Amended claim C2: on settled/new groups of canonical residues (every
compared settled residue and every non-terminal new residue has its 4
backbone atoms, the terminal new residue 4 or 3), and PROVIDED both compared
windows are non-empty, the batched and the incremental clash predicates
return the same boolean.  (When a window is empty the batched version raises
`ValueError` in `np.concatenate` while the incremental version returns
`False`; see the counterexample.) -/
theorem c2_clash_equiv (current last : List (List V3))
    (hS4 : ∀ r ∈ last.take (last.length - 2), r.length = 4)
    (hSne : last.take (last.length - 2) ≠ [])
    (hNne : current.drop (last.length + 1) ≠ [])
    (hN4 : ∀ r ∈ (current.drop (last.length + 1)).dropLast, r.length = 4)
    (hNshape : ∀ r ∈ current.drop (last.length + 1), r.length = 4 ∨ r.length = 3) :
    clash_found_vectorized current last = clash_found current last := by
  rw [clash_found_vectorized_blocks current last hS4 hSne hNne hN4 hNshape]
  unfold clash_found
  rw [scanSeen_eq (last.take (last.length - 2)) (current.drop (last.length + 1))
    hS4 hNshape]
  congr 1
  rw [decide_eq_decide]

/-- Counterexample to claim C2 as stated: for the canonical 4-atom-residue
chains below (a settled chain of 2 residues inside a current chain of 4
residues) the settled comparison window `last_chain[:-2]` is empty, so the
batched strategy crashes in `np.concatenate` (`ValueError`, modelled `none`)
while the incremental strategy returns `False`: the two do NOT return the
same boolean for every canonical input. -/
theorem c2_counterexample :
    clash_found_vectorized
        [[((0 : ℝ), 0, 0), ((1 : ℝ), 0, 0), ((2 : ℝ), 0, 0), ((3 : ℝ), 0, 0)],
         [((0 : ℝ), 0, 0), ((1 : ℝ), 0, 0), ((2 : ℝ), 0, 0), ((3 : ℝ), 0, 0)],
         [((9 : ℝ), 0, 0), ((9 : ℝ), 1, 0), ((9 : ℝ), 2, 0), ((9 : ℝ), 3, 0)],
         [((9 : ℝ), 9, 0), ((9 : ℝ), 9, 1), ((9 : ℝ), 9, 2), ((9 : ℝ), 9, 3)]]
        [[((0 : ℝ), 0, 0), ((1 : ℝ), 0, 0), ((2 : ℝ), 0, 0), ((3 : ℝ), 0, 0)],
         [((0 : ℝ), 0, 0), ((1 : ℝ), 0, 0), ((2 : ℝ), 0, 0), ((3 : ℝ), 0, 0)]] =
      none ∧
    clash_found
        [[((0 : ℝ), 0, 0), ((1 : ℝ), 0, 0), ((2 : ℝ), 0, 0), ((3 : ℝ), 0, 0)],
         [((0 : ℝ), 0, 0), ((1 : ℝ), 0, 0), ((2 : ℝ), 0, 0), ((3 : ℝ), 0, 0)],
         [((9 : ℝ), 0, 0), ((9 : ℝ), 1, 0), ((9 : ℝ), 2, 0), ((9 : ℝ), 3, 0)],
         [((9 : ℝ), 9, 0), ((9 : ℝ), 9, 1), ((9 : ℝ), 9, 2), ((9 : ℝ), 9, 3)]]
        [[((0 : ℝ), 0, 0), ((1 : ℝ), 0, 0), ((2 : ℝ), 0, 0), ((3 : ℝ), 0, 0)],
         [((0 : ℝ), 0, 0), ((1 : ℝ), 0, 0), ((2 : ℝ), 0, 0), ((3 : ℝ), 0, 0)]] =
      some false ∧
    (none : Option Bool) ≠ some false := by
  refine ⟨?_, ?_, by simp⟩
  · simp [clash_found_vectorized]
  · simp [clash_found, scanSeen]

/-- Witness for the amended claim C2 at a concrete canonical input with both
windows non-empty: one settled residue against one new residue; both
strategies return the same boolean. -/
theorem c2_clash_equiv_witness :
    clash_found_vectorized
        [[], [], [], [],
          [((50 : ℝ), 0, 0), ((51 : ℝ), 0, 0), ((52 : ℝ), 0, 0), ((53 : ℝ), 0, 0)]]
        [[((0 : ℝ), 0, 0), ((1 : ℝ), 0, 0), ((2 : ℝ), 0, 0), ((3 : ℝ), 0, 0)], [], []] =
      clash_found
        [[], [], [], [],
          [((50 : ℝ), 0, 0), ((51 : ℝ), 0, 0), ((52 : ℝ), 0, 0), ((53 : ℝ), 0, 0)]]
        [[((0 : ℝ), 0, 0), ((1 : ℝ), 0, 0), ((2 : ℝ), 0, 0), ((3 : ℝ), 0, 0)], [], []] :=
  c2_clash_equiv _ _ (by simp) (by simp) (by simp) (by simp) (by simp)

/-! ## Claim C1: torsion angles versus the per-bond-normal dihedral -/

/-- Claim C1 evaluated at the failing input, the 5-point chain
`(0,0,0), (0,3,4), (12,3,4), (12,6,0), (12,6,1)`.  `calc_torsion_angles`
does return `N - 3 = 2` angles, but because `np.linalg.norm` is called
without `axis` the cross-product stack and the interior bond stack are each
divided by one GLOBAL Frobenius scalar instead of row norms: the first
returned angle is `arctan(288/91)`, while the signed dihedral defined by the
specification through per-bond unit normals is `arctan(24/7)`
(`tan` scaled by `|q_1| / t = 12/13`), and the two differ. -/
theorem c1_torsion_global_norm_bug :
    (calc_torsion_angles [((0 : ℝ), 0, 0), ((0 : ℝ), 3, 4), ((12 : ℝ), 3, 4),
        ((12 : ℝ), 6, 0), ((12 : ℝ), 6, 1)]).length = 2 ∧
    (calc_torsion_angles [((0 : ℝ), 0, 0), ((0 : ℝ), 3, 4), ((12 : ℝ), 3, 4),
        ((12 : ℝ), 6, 0), ((12 : ℝ), 6, 1)]).headI = Real.arctan (288 / 91) ∧
    specDihedral ((0 : ℝ), 0, 0) ((0 : ℝ), 3, 4) ((12 : ℝ), 3, 4)
        ((12 : ℝ), 6, 0) = Real.arctan (24 / 7) ∧
    Real.arctan (288 / 91) ≠ Real.arctan (24 / 7) := by
  refine ⟨rfl, ?_, ?_, ?_⟩
  · have ht : Real.sqrt 169 = 13 := by
      rw [show (169 : ℝ) = 13 ^ 2 by norm_num]
      exact Real.sqrt_sq (by norm_num)
    simp only [calc_torsion_angles]
    norm_num [qVecsOf, vsub, cross3, frob, dot3, sdiv, ht]
    have hXpos : 0 < (48 / Real.sqrt 7209 * (48 / Real.sqrt 7209) +
        -36 / Real.sqrt 7209 * (36 / Real.sqrt 7209)) := by
      rw [div_mul_div_comm, div_mul_div_comm,
        Real.mul_self_sqrt (by norm_num : (0 : ℝ) ≤ 7209)]
      norm_num
    have hratio : (-(48 / Real.sqrt 7209 * (12 / 13 * (36 / Real.sqrt 7209))) +
          -36 / Real.sqrt 7209 * (12 / 13 * (48 / Real.sqrt 7209))) /
        (48 / Real.sqrt 7209 * (48 / Real.sqrt 7209) +
          -36 / Real.sqrt 7209 * (36 / Real.sqrt 7209)) = -(288 / 91) := by
      rw [div_eq_iff (ne_of_gt hXpos)]
      field_simp
      ring_nf
      nlinarith [Real.mul_self_sqrt (by norm_num : (0 : ℝ) ≤ 7209)]
    rw [atan2, if_pos hXpos, hratio]
    rw [show (-(288 / 91) : ℝ) = -(288 / 91) by norm_num, Real.arctan_neg]
    ring
  · have h60 : Real.sqrt 3600 = 60 := by
      rw [show (3600 : ℝ) = 60 ^ 2 by norm_num]
      exact Real.sqrt_sq (by norm_num)
    have h12 : Real.sqrt 144 = 12 := by
      rw [show (144 : ℝ) = 12 ^ 2 by norm_num]
      exact Real.sqrt_sq (by norm_num)
    simp only [specDihedral]
    norm_num [unitize, vnorm, vsub, cross3, dot3, sdiv, negOf, h60, h12]
    rw [atan2, if_pos (by norm_num : (0 : ℝ) < 7 / 25)]
    rw [show (-(24 / 25) / (7 / 25) : ℝ) = -(24 / 7) by norm_num, Real.arctan_neg]
    ring
  · intro h
    have := Real.arctan_injective h
    norm_num at this

end
